import Mathlib

/-!
Shallow embedding of the casper-deploy-generator display-row translation
engine (src/parser.rs and src/parser/v1.rs): the legacy deploy parser, the
new-format (v1) parser, and their shared argument-extraction and
value-formatting helpers.  Rust panics (`unwrap`, `panic!`) are modelled by
`Except String`; absence of an optional row by `Option`.
-/

namespace DeployGen

/-- Sensitivity of a display row: Regular rows are shown in the default
review, Expert rows only in the exhaustive review mode. -/
inductive Sensitivity where
  | regular
  | expert
deriving DecidableEq

/-- Modelled from the spec: the Display Row of `ledger.rs` (not under src/),
`Element {label, value, sensitivity}` per spec section 3, with the two
constructors and the reclassifying mutator of spec section 4.1. -/
structure Element where
  label : String
  value : String
  sensitivity : Sensitivity
deriving DecidableEq

/-- Constructor `Element::regular(label, value)`. -/
def Element.regular (label value : String) : Element :=
  ⟨label, value, Sensitivity.regular⟩

/-- Constructor `Element::expert(label, value)`. -/
def Element.expert (label value : String) : Element :=
  ⟨label, value, Sensitivity.expert⟩

/-- Mutator `Element::as_expert`: reclassifies an existing row to Expert. -/
def Element.as_expert (e : Element) : Element :=
  ⟨e.label, e.value, Sensitivity.expert⟩

/-- Modelled from the spec: a `CLValue` (external `casper_types` type) is
represented by its canonical display string, since this core only ever
observes it through `cl_value_to_string`. -/
abbrev CLValue := String

/-- Modelled from the spec: `cl_value_to_string` of `utils.rs` (not under
src/), the external canonical string rendering of a typed value; on our
representation it is the identity. -/
def cl_value_to_string (v : CLValue) : String := v

/-- `RuntimeArgs` (external `casper_types` type): a named-argument list in
insertion order; names are unique in well-formed transactions. -/
abbrev RuntimeArgs := List (String × CLValue)

deriving instance DecidableEq for Except

/-- `RuntimeArgs::get`: lookup of a named argument by name. -/
def RuntimeArgs.get (args : RuntimeArgs) (key : String) : Option CLValue :=
  List.lookup key args

/-- One step of `BTreeMap` construction: ordered insert that overwrites an
existing binding of the same key. -/
def btreeInsert (m : List (String × CLValue)) (k : String) (v : CLValue) :
    List (String × CLValue) :=
  match m with
  | [] => [(k, v)]
  | (k', v') :: rest =>
    if k < k' then (k, v) :: (k', v') :: rest
    else if k = k' then (k, v) :: rest
    else (k', v') :: btreeInsert rest k v

/-- `BTreeMap::<String, CLValue>::from(args)`: inserts the pairs in order,
producing an ascending-by-name list, later duplicates overwriting. -/
def toBTreeMap (args : RuntimeArgs) : List (String × CLValue) :=
  args.foldl (fun m kv => btreeInsert m kv.1 kv.2) []

/-- `mint::ARG_AMOUNT`. -/
def ARG_AMOUNT : String := "amount"

/-- `mint::ARG_TO`. -/
def ARG_TO : String := "to"

/-- `mint::ARG_SOURCE`. -/
def ARG_SOURCE : String := "source"

/-- `mint::ARG_TARGET`. -/
def ARG_TARGET : String := "target"

/-- `mint::ARG_ID`. -/
def ARG_ID : String := "id"

/-- `parse_runtime_args` (src/parser.rs): converts the named arguments into a
`BTreeMap` (ascending name order, insertion order discarded) and emits, for
the entry at sorted position i, the rows `arg-i-name = name` and
`arg-i-val = canonical value`, both Expert. -/
def parse_runtime_args (ra : RuntimeArgs) : List Element :=
  (toBTreeMap ra).enum.flatMap fun p =>
    [Element.expert ("arg-" ++ toString p.1 ++ "-name") p.2.1,
     Element.expert ("arg-" ++ toString p.1 ++ "-val") (cl_value_to_string p.2.2)]

/-- `parse_version` (src/parser.rs): absent version renders as "latest",
present as its decimal string; always Expert. -/
def parse_version (version : Option Nat) : Element :=
  match version with
  | none => Element.expert "version" "latest"
  | some v => Element.expert "version" (toString v)

/-- Decimal value of a digit string (the fold inside `from_dec_str`). -/
def decDigitsVal (s : String) : Nat :=
  s.data.foldl (fun a c => 10 * a + (c.toNat - 48)) 0

/-- `U512::from_dec_str` (external `uint` crate): accepts digits only,
fails with InvalidCharacter on a non-digit and with InvalidLength when the
value overflows 2^512. -/
def u512_from_dec_str (s : String) : Except String Nat :=
  if s.data.all Char.isDigit then
    if decDigitsVal s < 2 ^ 512 then Except.ok (decDigitsVal s)
    else Except.error "InvalidLength"
  else Except.error "InvalidCharacter"

/-- Groups of three characters taken from the front of a list. -/
def chunk3 : List Char → List (List Char)
  | [] => []
  | [a] => [[a]]
  | [a, b] => [[a, b]]
  | a :: b :: c :: rest => [a, b, c] :: chunk3 rest

/-- `Separable::separate_with_spaces` (external `thousands` crate) on a
non-negative integer: its decimal digits with a single space inserted
between every group of three digits counted from the right. -/
def separate_with_spaces (n : Nat) : String :=
  let digits := (Nat.repr n).data
  let groups := ((chunk3 digits.reverse).map List.reverse).reverse
  String.intercalate " " (groups.map fun g => String.mk g)

/-- `format_amount` (src/parser.rs): space-separated digit groups followed
by " motes". -/
def format_amount (motes : Nat) : String :=
  separate_with_spaces motes ++ " motes"

/-- `parse_optional_arg` (src/parser.rs): looks the key up in the named
arguments; present applies `f` to the canonical string form and emits one
row at the caller-chosen sensitivity, absent emits nothing.  `f` runs in
`Except` because `parse_amount` passes a panicking transform. -/
def parse_optional_arg (args : RuntimeArgs) (key : String) (expert : Bool)
    (f : String → Except String String) : Except String (Option Element) :=
  match args.get key with
  | some cl_value =>
    (f (cl_value_to_string cl_value)).map fun value =>
      some (if expert then Element.expert key value else Element.regular key value)
  | none => Except.ok none

/-- `identity` (src/parser.rs), lifted into the `Except` wrapper. -/
def identityF (s : String) : Except String String := Except.ok s

/-- `parse_amount` (src/parser.rs): optional "amount" argument, reparsed by
`U512::from_dec_str(..).unwrap()` (panic on failure) and reformatted with
`format_amount`; Regular sensitivity. -/
def parse_amount (args : RuntimeArgs) : Except String (Option Element) :=
  parse_optional_arg args ARG_AMOUNT false fun amount_str =>
    (u512_from_dec_str amount_str).map format_amount

/-- `parse_transfer_args` (src/parser.rs): the five transfer-specific rows
in order to, source, target, amount, id. -/
def parse_transfer_args (args : RuntimeArgs) : Except String (List Element) := do
  let toRow ← parse_optional_arg args ARG_TO false identityF
  let sourceRow ← parse_optional_arg args ARG_SOURCE true identityF
  let targetRow ← parse_optional_arg args ARG_TARGET false identityF
  let amountRow ← parse_amount args
  let idRow ← parse_optional_arg args ARG_ID true identityF
  pure (toRow.toList ++ sourceRow.toList ++ targetRow.toList ++
        amountRow.toList ++ idRow.toList)

/-- Modelled from the spec: `TxnPhase` of `ledger.rs` (not under src/), the
legacy-only tag distinguishing the payment sub-item from the session
sub-item; display strings "Payment" and "Session" as in the source comments
of `deploy_type`. -/
inductive TxnPhase where
  | Payment
  | Session
deriving DecidableEq

/-- `TxnPhase::is_payment`. -/
def TxnPhase.is_payment : TxnPhase → Bool
  | .Payment => true
  | .Session => false

/-- Display rendering of a phase, used as the classification row label. -/
def TxnPhase.display : TxnPhase → String
  | .Payment => "Payment"
  | .Session => "Session"

/-- Modelled from the spec: the external deterministic content digest
(`casper_node::crypto::hash` / `Digest::hash`, blake2b) rendered as its
debug string; abstracted as a deterministic computable function of the
exact bytes.  Only determinism and the exact bytes hashed matter to this
core, never the concrete digest value. -/
def hashDigest (bytes : List Nat) : String :=
  "digest(" ++ toString bytes ++ ")"

/-- `ExecutableDeployItem` (external `casper_execution_engine` type): the
closed legacy execution-target variant set.  Contract hashes and names are
kept as their rendered strings, module bytes as byte lists. -/
inductive ExecutableDeployItem where
  | ModuleBytes (module_bytes : List Nat) (args : RuntimeArgs)
  | StoredContractByHash (hash : String) (entry_point : String) (args : RuntimeArgs)
  | StoredContractByName (name : String) (entry_point : String) (args : RuntimeArgs)
  | StoredVersionedContractByHash (hash : String) (version : Option Nat)
      (entry_point : String) (args : RuntimeArgs)
  | StoredVersionedContractByName (name : String) (version : Option Nat)
      (entry_point : String) (args : RuntimeArgs)
  | Transfer (args : RuntimeArgs)
deriving DecidableEq

/-- `is_system_payment` (src/parser.rs): payment phase with empty module
bytes. -/
def is_system_payment (phase : TxnPhase) (module_bytes : List Nat) : Bool :=
  phase.is_payment && module_bytes.isEmpty

/-- `deploy_type` (src/parser.rs): the phase-labeled kind rows plus detail
(hash / name / version / content digest), no arguments or entry points. -/
def deploy_type (phase : TxnPhase) (item : ExecutableDeployItem) : List Element :=
  let phase_label := phase.display
  match item with
  | .ModuleBytes module_bytes _ =>
    if is_system_payment phase module_bytes then
      [Element.regular phase_label "system"]
    else
      [Element.regular phase_label "contract",
       Element.regular "Cntrct hash" (hashDigest module_bytes)]
  | .StoredContractByHash hash _ _ =>
    [Element.regular phase_label "by-hash",
     Element.regular "address" hash]
  | .StoredContractByName name _ _ =>
    [Element.regular phase_label "by-name",
     Element.regular "name" name]
  | .StoredVersionedContractByHash hash version _ _ =>
    [Element.regular phase_label "by-hash-versioned",
     Element.regular "address" hash,
     parse_version version]
  | .StoredVersionedContractByName name version _ _ =>
    [Element.regular phase_label "by-name-versioned",
     Element.regular "name" name,
     parse_version version]
  | .Transfer _ =>
    [Element.regular phase_label "native transfer"]

/-- `is_entrypoint` (src/parser.rs): false on `ModuleBytes` and `Transfer`,
string equality of the entry point on the four stored-contract variants. -/
def is_entrypoint (item : ExecutableDeployItem) (expected : String) : Bool :=
  match item with
  | .ModuleBytes _ _ => false
  | .Transfer _ => false
  | .StoredContractByHash _ entry_point _ => entry_point == expected
  | .StoredContractByName _ entry_point _ => entry_point == expected
  | .StoredVersionedContractByHash _ _ entry_point _ => entry_point == expected
  | .StoredVersionedContractByName _ _ entry_point _ => entry_point == expected

/-- `is_delegate` (src/parser.rs). -/
def is_delegate (item : ExecutableDeployItem) : Bool :=
  is_entrypoint item "delegate"

/-- `is_undelegate` (src/parser.rs). -/
def is_undelegate (item : ExecutableDeployItem) : Bool :=
  is_entrypoint item "undelegate"

/-- Arguments of the four stored-contract variants (the shape shared by the
delegation match arms). -/
def stored_args : ExecutableDeployItem → Option RuntimeArgs
  | .StoredContractByHash _ _ args => some args
  | .StoredContractByName _ _ args => some args
  | .StoredVersionedContractByHash _ _ _ args => some args
  | .StoredVersionedContractByName _ _ _ args => some args
  | .ModuleBytes _ _ => none
  | .Transfer _ => none

/-- `parse_delegation` (src/parser.rs): "Auction = delegate" (Regular), the
item's `deploy_type` rows (always computed at Session phase) demoted to
Expert, then optional delegator / validator / amount rows; panics on
`ModuleBytes` and `Transfer`. -/
def parse_delegation (item : ExecutableDeployItem) : Except String (List Element) := do
  let head := Element.regular "Auction" "delegate" ::
    (deploy_type TxnPhase.Session item).map Element.as_expert
  match stored_args item with
  | none => Except.error "unexpected type for delegation"
  | some args => do
    let delegator_pk ← parse_optional_arg args "delegator" false identityF
    let validator_pk ← parse_optional_arg args "validator" false identityF
    let amountRow ← parse_amount args
    pure (head ++ delegator_pk.toList ++ validator_pk.toList ++ amountRow.toList)

/-- `parse_undelegation` (src/parser.rs): same shape with the "undelegate"
summary row. -/
def parse_undelegation (item : ExecutableDeployItem) : Except String (List Element) := do
  let head := Element.regular "Auction" "undelegate" ::
    (deploy_type TxnPhase.Session item).map Element.as_expert
  match stored_args item with
  | none => Except.error "unexpected type for undelegation"
  | some args => do
    let delegator_pk ← parse_optional_arg args "delegator" false identityF
    let validator_pk ← parse_optional_arg args "validator" false identityF
    let amountRow ← parse_amount args
    pure (head ++ delegator_pk.toList ++ validator_pk.toList ++ amountRow.toList)

/-- `remove_amount_arg` (src/parser.rs): the arguments as a `BTreeMap` with
the "amount" key deleted. -/
def remove_amount_arg (args : RuntimeArgs) : RuntimeArgs :=
  (toBTreeMap args).filter fun kv => kv.1 ≠ ARG_AMOUNT

/-- `remove_transfer_args` (src/parser.rs): the arguments as a `BTreeMap`
with the five transfer keys to, source, target, amount, id deleted. -/
def remove_transfer_args (args : RuntimeArgs) : RuntimeArgs :=
  (toBTreeMap args).filter fun kv =>
    kv.1 ≠ ARG_TO ∧ kv.1 ≠ ARG_SOURCE ∧ kv.1 ≠ ARG_TARGET ∧
    kv.1 ≠ ARG_AMOUNT ∧ kv.1 ≠ ARG_ID

/-- `entrypoint` (src/parser.rs): the Expert "entry-point" row. -/
def entrypoint (entry_point : String) : Element :=
  Element.expert "entry-point" entry_point

/-- `parse_phase` (src/parser.rs): auction dispatch on the literal
delegate / undelegate entry-point names, otherwise the `deploy_type`
classification rows followed by per-variant argument extraction.  In the
`Transfer` arm the source shadows `elements` with a fresh local, so the
transfer rows and the generic dump are computed (panics included) and then
discarded; only the classification rows are returned. -/
def parse_phase (item : ExecutableDeployItem) (phase : TxnPhase) :
    Except String (List Element) :=
  if is_delegate item then parse_delegation item
  else if is_undelegate item then parse_undelegation item
  else
    let elements := deploy_type phase item
    match item with
    | .ModuleBytes module_bytes args =>
      if is_system_payment phase module_bytes then do
        let amountRow ← parse_amount args
        let args_sans_amount := remove_amount_arg args
        pure (elements ++ amountRow.toList ++ parse_runtime_args args_sans_amount)
      else
        Except.ok (elements ++ parse_runtime_args args)
    | .StoredContractByHash _ entry_point args =>
      Except.ok (elements ++ [entrypoint entry_point] ++ parse_runtime_args args)
    | .StoredContractByName _ entry_point args =>
      Except.ok (elements ++ [entrypoint entry_point] ++ parse_runtime_args args)
    | .StoredVersionedContractByHash _ _ entry_point args =>
      Except.ok (elements ++ [entrypoint entry_point] ++ parse_runtime_args args)
    | .StoredVersionedContractByName _ _ entry_point args =>
      Except.ok (elements ++ [entrypoint entry_point] ++ parse_runtime_args args)
    | .Transfer args => do
      let shadowed ← parse_transfer_args args
      let args_sans_transfer := remove_transfer_args args
      let _discarded := shadowed ++ parse_runtime_args args_sans_transfer
      pure elements

/-- `TransactionInvocationTarget` (external `casper_types` type): the four
stored-invocation shapes of the new format.  Hash addresses are byte
arrays, rendered by the source as the concatenation of the decimal strings
of the bytes. -/
inductive TransactionInvocationTarget where
  | ByHash (hash : List Nat)
  | ByName (name : String)
  | ByPackageHash (addr : List Nat) (version : Option Nat)
  | ByPackageName (name : String) (version : Option Nat)
deriving DecidableEq

/-- `TransactionTarget` (external `casper_types` type): native operation,
stored invocation, or session with embedded code bytes.  The runtime
fields, opaque to this core, are omitted. -/
inductive TransactionTarget where
  | Native
  | Stored (id : TransactionInvocationTarget)
  | Session (module_bytes : List Nat)
deriving DecidableEq

/-- `TransactionEntryPoint` (external `casper_types` type): the entry-point
tag of a new-format transaction. -/
inductive TransactionEntryPoint where
  | Transfer
  | Delegate
  | Undelegate
  | Redelegate
  | Custom (name : String)
deriving DecidableEq

/-- `TransactionArgs` (external `casper_types` type): named arguments or an
opaque bytesrepr chunk; `as_named` succeeds only on the named form. -/
inductive TransactionArgs where
  | Named (args : RuntimeArgs)
  | Bytesrepr (bytes : List Nat)
deriving DecidableEq

/-- `TransactionV1Meta` (src/parser/v1.rs): the decoded field-map slots of
a new-format transaction; the scheduling slot, opaque to this core, is
modelled as a unit. -/
structure TransactionV1Meta where
  args : TransactionArgs
  target : TransactionTarget
  entry_point : TransactionEntryPoint
  scheduling : Unit
deriving DecidableEq

/-- `is_system_payment` (src/parser/v1.rs): empty module bytes, with no
phase condition in the new format. -/
def is_system_payment_v1 (module_bytes : List Nat) : Bool :=
  module_bytes.isEmpty

/-- Rendering of a hash address in `v1_type`:
`hash.into_iter().map(|x| x.to_string()).collect()`, the concatenation of
the decimal strings of the bytes. -/
def render_hash_bytes (bytes : List Nat) : String :=
  String.join (bytes.map toString)

/-- `v1_type` (src/parser/v1.rs): the execution-target classification rows
of the new format; native and system-session targets contribute none. -/
def v1_type (item : TransactionV1Meta) : List Element :=
  match item.target with
  | .Native => []
  | .Stored id =>
    match id with
    | .ByHash hash =>
      [Element.regular "execution" "by-hash",
       Element.regular "address" (render_hash_bytes hash)]
    | .ByName name =>
      [Element.regular "execution" "by-name",
       Element.regular "name" name]
    | .ByPackageHash addr version =>
      [Element.regular "execution" "by-hash-versioned",
       Element.regular "address" (render_hash_bytes addr),
       parse_version version]
    | .ByPackageName name version =>
      [Element.regular "execution" "by-name-versioned",
       Element.regular "name" name,
       parse_version version]
  | .Session module_bytes =>
    if is_system_payment_v1 module_bytes then []
    else
      [Element.regular "execution" "contract",
       Element.regular "Cntrct hash" (hashDigest module_bytes)]

/-- Modelled from the spec: `parse_public_key` of `utils.rs` (not under
src/), the external canonical rendering of a public key; keys are
represented by their rendered strings. -/
def parse_public_key (pk : String) : String := pk

/-- Modelled from the spec: `parse_account_hash` of `utils.rs` (not under
src/), the external canonical rendering of an account hash. -/
def parse_account_hash (ah : String) : String := ah

/-- Modelled from the spec: `timestamp_to_seconds_res` of `utils.rs` (not
under src/), the external rendering of a timestamp in seconds; timestamps
are represented by their rendered strings. -/
def timestamp_to_seconds_res (t : String) : String := t

/-- `InitiatorAddr` (external `casper_types` type): the initiating account
identity, a public key when known, otherwise an account hash. -/
inductive InitiatorAddr where
  | PublicKey (pk : String)
  | AccountHash (hash : String)
deriving DecidableEq

/-- `PricingMode` (external `casper_types` type): the pricing mode of a
new-format transaction; only the payment amount of the payment-limited
mode is observed by this core. -/
inductive PricingMode where
  | PaymentLimited (payment_amount : Nat)
  | Fixed
  | Prepaid
deriving DecidableEq

/-- `TransactionV1Payload` (external `casper_types` type): the header
fields of a new-format transaction observed by `parse_v1_payload`; the
time-to-live is kept as its rendered string. -/
structure TransactionV1Payload where
  chain_name : String
  initiator_addr : InitiatorAddr
  pricing_mode : PricingMode
  timestamp : String
  ttl : String
deriving DecidableEq

/-- `parse_v1_payload` (src/parser/v1.rs): the new-format header rows —
chain ID (Regular), initiating account (Regular), timestamp (Expert),
time-to-live (Expert), price indicator (Expert) derived from the pricing
mode. -/
def parse_v1_payload (payload : TransactionV1Payload) : List Element :=
  let initiator :=
    match payload.initiator_addr with
    | .PublicKey public_key => parse_public_key public_key
    | .AccountHash account_hash => parse_account_hash account_hash
  let gas_price :=
    match payload.pricing_mode with
    | .PaymentLimited payment_amount => toString payment_amount
    | .Fixed => "Fixed"
    | .Prepaid => "0"
  [Element.regular "chain ID" payload.chain_name,
   Element.regular "account" initiator,
   Element.expert "timestamp" (timestamp_to_seconds_res payload.timestamp),
   Element.expert "ttl" payload.ttl,
   Element.expert "payment" gas_price]

/-- Key ordering on named-argument pairs: ascending argument name. -/
def keyLt (a b : String × CLValue) : Prop := a.1 < b.1

instance : DecidableRel keyLt := fun a b => inferInstanceAs (Decidable (a.1 < b.1))

instance : IsAntisymm (String × CLValue) keyLt where
  antisymm _ _ hab hba := absurd hab (lt_asymm hba)

/-- The row `parse_optional_arg` emits for a present key under the identity
transform (a closed form used to state theorems). -/
def opt_arg_row (args : RuntimeArgs) (key : String) (expert : Bool) : Option Element :=
  (args.get key).map fun v =>
    if expert then Element.expert key (cl_value_to_string v)
    else Element.regular key (cl_value_to_string v)

/-- Written from the spec's words, for comparison with `parse_v1_payload`:
a payment-limited mode shows its literal payment amount, a fixed-price
mode renders the literal string "Fixed", a prepaid mode renders "0". -/
def price_indicator_spec : PricingMode → String
  | .PaymentLimited payment_amount => toString payment_amount
  | .Fixed => "Fixed"
  | .Prepaid => "0"

end DeployGen

namespace DeployGen

/-! ### Helper lemmas -/

theorem parse_optional_arg_identityF (args : RuntimeArgs) (key : String) (expert : Bool) :
    parse_optional_arg args key expert identityF = Except.ok (opt_arg_row args key expert) := by
  unfold parse_optional_arg opt_arg_row identityF
  cases args.get key <;> rfl

theorem parse_amount_shape (args : RuntimeArgs) :
    (∃ r, parse_amount args = Except.ok r) ∨
    parse_amount args = Except.error "InvalidCharacter" ∨
    parse_amount args = Except.error "InvalidLength" := by
  unfold parse_amount parse_optional_arg u512_from_dec_str
  cases args.get ARG_AMOUNT with
  | none => exact Or.inl ⟨none, rfl⟩
  | some v =>
    by_cases hd : (cl_value_to_string v).data.all Char.isDigit
    · by_cases hlt : decDigitsVal (cl_value_to_string v) < 2 ^ 512
      · refine Or.inl ⟨some (Element.regular ARG_AMOUNT (format_amount (decDigitsVal (cl_value_to_string v)))), ?_⟩
        simp [hd, hlt, Except.map]
      · exact Or.inr (Or.inr (by simp [hd, hlt, Except.map]))
    · exact Or.inr (Or.inl (by simp [hd, Except.map]))

theorem parse_amount_error_shape (args : RuntimeArgs) (e : String)
    (h : parse_amount args = Except.error e) :
    e = "InvalidCharacter" ∨ e = "InvalidLength" := by
  rcases parse_amount_shape args with ⟨r, hr⟩ | hr | hr <;> rw [hr] at h
  · exact absurd h (by simp)
  · exact Or.inl (by injection h.symm)
  · exact Or.inr (by injection h.symm)

theorem parse_transfer_args_eq (args : RuntimeArgs) :
    parse_transfer_args args =
      (parse_amount args).map fun amountRow =>
        (opt_arg_row args ARG_TO false).toList ++
        (opt_arg_row args ARG_SOURCE true).toList ++
        (opt_arg_row args ARG_TARGET false).toList ++
        amountRow.toList ++ (opt_arg_row args ARG_ID true).toList := by
  unfold parse_transfer_args
  rw [parse_optional_arg_identityF, parse_optional_arg_identityF,
      parse_optional_arg_identityF, parse_optional_arg_identityF]
  cases hpa : parse_amount args <;>
    simp [hpa, Except.map, Bind.bind, Except.bind, Pure.pure, Except.pure]

theorem except_map_error {α β : Type} (x : Except String α) (f : α → β) (e : String)
    (h : x.map f = Except.error e) : x = Except.error e := by
  cases x with
  | ok a => simp [Except.map] at h
  | error e' => simp [Except.map] at h; rw [h]

theorem parse_delegation_eq_stored (item : ExecutableDeployItem) (args : RuntimeArgs)
    (h : stored_args item = some args) :
    parse_delegation item =
      (parse_amount args).map fun amountRow =>
        (Element.regular "Auction" "delegate" ::
          (deploy_type TxnPhase.Session item).map Element.as_expert) ++
        (opt_arg_row args "delegator" false).toList ++
        (opt_arg_row args "validator" false).toList ++ amountRow.toList := by
  unfold parse_delegation
  rw [h]
  cases hpa : parse_amount args <;>
    simp [hpa, parse_optional_arg_identityF, Except.map, Bind.bind, Except.bind,
          Pure.pure, Except.pure]

theorem parse_undelegation_eq_stored (item : ExecutableDeployItem) (args : RuntimeArgs)
    (h : stored_args item = some args) :
    parse_undelegation item =
      (parse_amount args).map fun amountRow =>
        (Element.regular "Auction" "undelegate" ::
          (deploy_type TxnPhase.Session item).map Element.as_expert) ++
        (opt_arg_row args "delegator" false).toList ++
        (opt_arg_row args "validator" false).toList ++ amountRow.toList := by
  unfold parse_undelegation
  rw [h]
  cases hpa : parse_amount args <;>
    simp [hpa, parse_optional_arg_identityF, Except.map, Bind.bind, Except.bind,
          Pure.pure, Except.pure]

theorem is_delegate_of_undelegate (item : ExecutableDeployItem)
    (h : is_undelegate item = true) : is_delegate item = false := by
  cases item <;> simp_all [is_undelegate, is_delegate, is_entrypoint]

theorem parse_phase_delegate (item : ExecutableDeployItem) (phase : TxnPhase)
    (h : is_delegate item = true) :
    parse_phase item phase = parse_delegation item := by
  unfold parse_phase
  simp [h]

theorem parse_phase_undelegate (item : ExecutableDeployItem) (phase : TxnPhase)
    (h : is_undelegate item = true) :
    parse_phase item phase = parse_undelegation item := by
  unfold parse_phase
  simp [h, is_delegate_of_undelegate item h]

theorem stored_args_of_delegate (item : ExecutableDeployItem)
    (h : is_delegate item = true ∨ is_undelegate item = true) :
    ∃ args, stored_args item = some args := by
  cases item <;>
    first
    | exact ⟨_, rfl⟩
    | rcases h with h | h <;> simp [is_delegate, is_undelegate, is_entrypoint] at h

theorem parse_phase_error_shape (item : ExecutableDeployItem) (phase : TxnPhase) (e : String)
    (h : parse_phase item phase = Except.error e) :
    e = "InvalidCharacter" ∨ e = "InvalidLength" := by
  by_cases hd : is_delegate item = true
  · rw [parse_phase_delegate item phase hd] at h
    obtain ⟨args, ha⟩ := stored_args_of_delegate item (Or.inl hd)
    rw [parse_delegation_eq_stored item args ha] at h
    exact parse_amount_error_shape args e (except_map_error _ _ _ h)
  · by_cases hu : is_undelegate item = true
    · rw [parse_phase_undelegate item phase hu] at h
      obtain ⟨args, ha⟩ := stored_args_of_delegate item (Or.inr hu)
      rw [parse_undelegation_eq_stored item args ha] at h
      exact parse_amount_error_shape args e (except_map_error _ _ _ h)
    · unfold parse_phase at h
      rw [if_neg hd, if_neg hu] at h
      cases item with
      | ModuleBytes mb args =>
        by_cases hsp : is_system_payment phase mb = true
        · simp only [hsp, if_pos] at h
          cases hpa : parse_amount args <;>
            simp [hpa, Bind.bind, Except.bind, Pure.pure, Except.pure] at h
          exact h ▸ parse_amount_error_shape args _ hpa
        · simp [hsp] at h
      | Transfer args =>
        cases hta : parse_transfer_args args <;>
          simp [hta, Bind.bind, Except.bind, Pure.pure, Except.pure] at h
        rw [parse_transfer_args_eq] at hta
        have hpa := except_map_error _ _ _ hta
        exact h ▸ parse_amount_error_shape args _ hpa
      | StoredContractByHash hash ep args => simp at h
      | StoredContractByName name ep args => simp at h
      | StoredVersionedContractByHash hash ver ep args => simp at h
      | StoredVersionedContractByName name ver ep args => simp at h

theorem toDigitsCore_succ_length (f : Nat) :
    ∀ (n : Nat) (l : List Char),
      l.length + 1 ≤ (Nat.toDigitsCore 10 (f + 1) n l).length := by
  induction f with
  | zero =>
    intro n l
    have hstep : Nat.toDigitsCore 10 1 n l =
        if n / 10 = 0 then Nat.digitChar (n % 10) :: l
        else Nat.toDigitsCore 10 0 (n / 10) (Nat.digitChar (n % 10) :: l) := rfl
    rw [hstep]
    by_cases h : n / 10 = 0 <;> simp [h, Nat.toDigitsCore]
  | succ f ih =>
    intro n l
    have hstep : Nat.toDigitsCore 10 (f + 1 + 1) n l =
        if n / 10 = 0 then Nat.digitChar (n % 10) :: l
        else Nat.toDigitsCore 10 (f + 1) (n / 10) (Nat.digitChar (n % 10) :: l) := rfl
    rw [hstep]
    by_cases h : n / 10 = 0
    · simp [h]
    · rw [if_neg h]
      have := ih (n / 10) (Nat.digitChar (n % 10) :: l)
      simp only [List.length_cons] at this
      omega

theorem repr_data_ne_nil (n : Nat) : (Nat.repr n).data ≠ [] := by
  have h := toDigitsCore_succ_length n n []
  simp only [List.length_nil] at h
  simp only [Nat.repr, Nat.toDigits, List.asString]
  intro hc
  rw [hc] at h
  simp at h

theorem chunk3_flatten (l : List Char) : (chunk3 l).flatten = l := by
  induction l using chunk3.induct <;> simp [chunk3, *]

theorem chunk3_mem_length (l : List Char) (g : List Char) (hg : g ∈ chunk3 l) :
    0 < g.length ∧ g.length ≤ 3 := by
  induction l using chunk3.induct generalizing g with
  | case1 => simp [chunk3] at hg
  | case2 a => simp [chunk3] at hg; simp [hg]
  | case3 a b => simp [chunk3] at hg; simp [hg]
  | case4 a b c rest ih =>
    simp only [chunk3, List.mem_cons] at hg
    rcases hg with hg | hg
    · simp [hg]
    · exact ih g hg

theorem chunk3_ne_nil (l : List Char) (h : l ≠ []) : chunk3 l ≠ [] := by
  match l with
  | [] => exact absurd rfl h
  | [a] => simp [chunk3]
  | [a, b] => simp [chunk3]
  | a :: b :: c :: rest => simp [chunk3]

theorem chunk3_dropLast_length (l : List Char) (g : List Char)
    (hg : g ∈ (chunk3 l).dropLast) : g.length = 3 := by
  induction l using chunk3.induct generalizing g with
  | case1 => simp [chunk3] at hg
  | case2 a => simp [chunk3] at hg
  | case3 a b => simp [chunk3] at hg
  | case4 a b c rest ih =>
    simp only [chunk3] at hg
    cases hcr : chunk3 rest with
    | nil => rw [hcr] at hg; simp at hg
    | cons x xs =>
      rw [hcr] at hg
      simp only [List.dropLast_cons₂, List.mem_cons] at hg
      rcases hg with hg | hg
      · simp [hg]
      · exact ih g (hcr ▸ hg)

theorem mem_btreeInsert (m : List (String × CLValue)) (k : String) (v : CLValue)
    (x : String × CLValue) (hx : x ∈ btreeInsert m k v) : x = (k, v) ∨ x ∈ m := by
  induction m with
  | nil => simp [btreeInsert] at hx; simp [hx]
  | cons hd tl ih =>
    obtain ⟨k', v'⟩ := hd
    simp only [btreeInsert] at hx
    split at hx
    · rcases List.mem_cons.mp hx with h | h
      · exact Or.inl h
      · exact Or.inr h
    · split at hx
      · rcases List.mem_cons.mp hx with h | h
        · exact Or.inl h
        · exact Or.inr (List.mem_cons_of_mem _ h)
      · rcases List.mem_cons.mp hx with h | h
        · exact Or.inr (h ▸ List.mem_cons_self _ _)
        · rcases ih h with h1 | h1
          · exact Or.inl h1
          · exact Or.inr (List.mem_cons_of_mem _ h1)

theorem keys_btreeInsert (m : List (String × CLValue)) (k : String) (v : CLValue)
    (k1 : String) (h : k1 ∈ (btreeInsert m k v).map Prod.fst) :
    k1 = k ∨ k1 ∈ m.map Prod.fst := by
  rw [List.mem_map] at h
  obtain ⟨x, hx, rfl⟩ := h
  rcases mem_btreeInsert m k v x hx with h | h
  · exact Or.inl (by rw [h])
  · exact Or.inr (List.mem_map_of_mem _ h)

theorem pairwise_btreeInsert (m : List (String × CLValue)) (k : String) (v : CLValue)
    (hm : m.Pairwise keyLt) : (btreeInsert m k v).Pairwise keyLt := by
  induction m with
  | nil => simp [btreeInsert]
  | cons hd tl ih =>
    obtain ⟨k', v'⟩ := hd
    rw [List.pairwise_cons] at hm
    obtain ⟨hhd, htl⟩ := hm
    simp only [btreeInsert]
    split
    · rename_i h1
      rw [List.pairwise_cons]
      refine ⟨?_, List.pairwise_cons.mpr ⟨hhd, htl⟩⟩
      intro y hy
      rcases List.mem_cons.mp hy with rfl | hy
      · exact h1
      · exact lt_trans h1 (hhd y hy)
    · rename_i h1
      split
      · rename_i h2
        rw [List.pairwise_cons]
        refine ⟨?_, htl⟩
        intro y hy
        have hk' := hhd y hy
        show k < y.1
        rw [h2]
        exact hk'
      · rename_i h2
        have hk : k' < k := lt_of_le_of_ne (not_lt.mp h1) (fun hc => h2 hc.symm)
        rw [List.pairwise_cons]
        refine ⟨?_, ih htl⟩
        intro y hy
        rcases mem_btreeInsert tl k v y hy with rfl | hy
        · exact hk
        · exact hhd y hy

theorem btreeInsert_perm (m : List (String × CLValue)) (k : String) (v : CLValue)
    (hk : k ∉ m.map Prod.fst) : List.Perm (btreeInsert m k v) ((k, v) :: m) := by
  induction m with
  | nil => simp [btreeInsert]
  | cons hd tl ih =>
    obtain ⟨k', v'⟩ := hd
    simp only [List.map_cons, List.mem_cons, not_or] at hk
    obtain ⟨hk1, hk2⟩ := hk
    simp only [btreeInsert]
    rcases lt_trichotomy k k' with h1 | h1 | h1
    · rw [if_pos h1]
    · exact absurd h1 hk1
    · rw [if_neg (lt_asymm h1), if_neg hk1]
      exact List.Perm.trans (List.Perm.cons _ (ih hk2)) (List.Perm.swap _ _ _)

theorem foldl_btreeInsert_pairwise (l : List (String × CLValue)) :
    ∀ m, m.Pairwise keyLt →
      (l.foldl (fun m kv => btreeInsert m kv.1 kv.2) m).Pairwise keyLt := by
  induction l with
  | nil => intro m hm; exact hm
  | cons kv rest ih =>
    intro m hm
    exact ih _ (pairwise_btreeInsert m kv.1 kv.2 hm)

theorem toBTreeMap_pairwise (ra : RuntimeArgs) : (toBTreeMap ra).Pairwise keyLt :=
  foldl_btreeInsert_pairwise ra [] List.Pairwise.nil

theorem foldl_btreeInsert_perm (l : List (String × CLValue)) :
    ∀ m, (l.map Prod.fst).Nodup →
      (∀ k ∈ m.map Prod.fst, k ∉ l.map Prod.fst) →
      List.Perm (l.foldl (fun m kv => btreeInsert m kv.1 kv.2) m) (m ++ l) := by
  induction l with
  | nil => intro m _ _; simp
  | cons kv rest ih =>
    intro m hnd hdisj
    simp only [List.map_cons, List.nodup_cons] at hnd
    obtain ⟨hk_not_rest, hnd_rest⟩ := hnd
    have hk_not_m : kv.1 ∉ m.map Prod.fst := by
      intro hc
      exact hdisj kv.1 hc (List.mem_cons_self _ _)
    have hperm1 := btreeInsert_perm m kv.1 kv.2 hk_not_m
    have hdisj' : ∀ k ∈ (btreeInsert m kv.1 kv.2).map Prod.fst, k ∉ rest.map Prod.fst := by
      intro k hk
      rcases keys_btreeInsert m kv.1 kv.2 k hk with rfl | hk
      · exact hk_not_rest
      · intro hc
        exact hdisj k hk (List.mem_cons_of_mem _ hc)
    simp only [List.foldl_cons]
    refine (ih (btreeInsert m kv.1 kv.2) hnd_rest hdisj').trans ?_
    refine List.Perm.trans (List.Perm.append_right rest hperm1) ?_
    exact List.perm_middle.symm

theorem toBTreeMap_perm (ra : RuntimeArgs) (h : (ra.map Prod.fst).Nodup) :
    List.Perm (toBTreeMap ra) ra := by
  have := foldl_btreeInsert_perm ra [] h (by simp)
  simpa using this

theorem toBTreeMap_eq_of_perm (ra₁ ra₂ : RuntimeArgs)
    (h1 : (ra₁.map Prod.fst).Nodup) (hp : List.Perm ra₁ ra₂) :
    toBTreeMap ra₁ = toBTreeMap ra₂ := by
  have h2 : (ra₂.map Prod.fst).Nodup := (hp.map Prod.fst).nodup h1
  have p1 := toBTreeMap_perm ra₁ h1
  have p2 := toBTreeMap_perm ra₂ h2
  exact List.eq_of_perm_of_sorted (p1.trans (hp.trans p2.symm))
    (toBTreeMap_pairwise ra₁) (toBTreeMap_pairwise ra₂)

theorem flatMap_pair_length {α : Type} (l : List α) (f g : α → Element) :
    (l.flatMap fun x => [f x, g x]).length = 2 * l.length := by
  induction l with
  | nil => rfl
  | cons x xs ih =>
    simp only [List.flatMap_cons, List.length_append, List.length_cons, ih,
      List.length_nil]
    omega

theorem parse_runtime_args_expert (ra : RuntimeArgs) (e : Element)
    (he : e ∈ parse_runtime_args ra) : e.sensitivity = Sensitivity.expert := by
  unfold parse_runtime_args at he
  rw [List.mem_flatMap] at he
  obtain ⟨p, _, hp⟩ := he
  simp only [List.mem_cons, List.mem_singleton] at hp
  rcases hp with rfl | hp
  · rfl
  · rcases hp with rfl | hp
    · rfl
    · exact absurd hp (List.not_mem_nil e)

/-! ### Claim theorems -/

/-- C4: a stored-contract item (any of the four variants) whose entry
point is literally "delegate" is routed by `parse_phase` to auction
formatting regardless of which contract it targets, the output being the
"Auction" = "delegate" row (Regular), the item's classification rows
forced to Expert, then optional delegator (Regular), validator (Regular)
and amount (Regular) rows; symmetrically for "undelegate". -/
theorem c4_auction_routing (item : ExecutableDeployItem) (phase : TxnPhase)
    (args : RuntimeArgs) (amountRow : Option Element) :
    (is_delegate item = true → parse_phase item phase = parse_delegation item) ∧
    (is_undelegate item = true → parse_phase item phase = parse_undelegation item) ∧
    (is_delegate item = true → stored_args item = some args →
      parse_amount args = Except.ok amountRow →
      parse_phase item phase = Except.ok (
        (Element.regular "Auction" "delegate" ::
          (deploy_type TxnPhase.Session item).map Element.as_expert) ++
        (opt_arg_row args "delegator" false).toList ++
        (opt_arg_row args "validator" false).toList ++ amountRow.toList)) ∧
    (is_undelegate item = true → stored_args item = some args →
      parse_amount args = Except.ok amountRow →
      parse_phase item phase = Except.ok (
        (Element.regular "Auction" "undelegate" ::
          (deploy_type TxnPhase.Session item).map Element.as_expert) ++
        (opt_arg_row args "delegator" false).toList ++
        (opt_arg_row args "validator" false).toList ++ amountRow.toList)) := by
  refine ⟨parse_phase_delegate item phase, parse_phase_undelegate item phase, ?_, ?_⟩
  · intro hd ha hpa
    rw [parse_phase_delegate item phase hd, parse_delegation_eq_stored item args ha, hpa]
    rfl
  · intro hu ha hpa
    rw [parse_phase_undelegate item phase hu, parse_undelegation_eq_stored item args ha, hpa]
    rfl

set_option maxRecDepth 8000 in
/-- C4 witness: concrete delegate and undelegate calls against a contract
that is plainly not the staking contract. -/
theorem c4_auction_routing_witness :
    parse_phase (.StoredContractByName "anything" "delegate"
        [("delegator", "D"), ("validator", "V"), ("amount", "2000")]) TxnPhase.Payment =
      Except.ok
        [Element.regular "Auction" "delegate",
         Element.expert "Session" "by-name",
         Element.expert "name" "anything",
         Element.regular "delegator" "D",
         Element.regular "validator" "V",
         Element.regular "amount" "2 000 motes"] ∧
    parse_phase (.StoredVersionedContractByHash "CAFE" (some 4) "undelegate"
        [("validator", "V")]) TxnPhase.Session =
      Except.ok
        [Element.regular "Auction" "undelegate",
         Element.expert "Session" "by-hash-versioned",
         Element.expert "address" "CAFE",
         Element.expert "version" "4",
         Element.regular "validator" "V"] := by
  constructor
  · exact (c4_auction_routing
      (.StoredContractByName "anything" "delegate"
        [("delegator", "D"), ("validator", "V"), ("amount", "2000")])
      TxnPhase.Payment
      [("delegator", "D"), ("validator", "V"), ("amount", "2000")]
      (some (Element.regular "amount" "2 000 motes"))).2.2.1 rfl rfl (by decide)
  · exact (c4_auction_routing
      (.StoredVersionedContractByHash "CAFE" (some 4) "undelegate" [("validator", "V")])
      TxnPhase.Session [("validator", "V")] none).2.2.2 rfl rfl (by decide)

/-- C6: the generic argument dump of a named-argument mapping of size N
has exactly 2N rows alternating `arg-i-name` / `arg-i-val`, all Expert,
with entries in ascending argument-name order, and two mappings with the
same contents in different insertion orders dump identically. -/
theorem c6_generic_dump_canonical (ra₁ ra₂ : RuntimeArgs)
    (hnd : (ra₁.map Prod.fst).Nodup) (hperm : List.Perm ra₁ ra₂) :
    parse_runtime_args ra₁ = parse_runtime_args ra₂ ∧
    (parse_runtime_args ra₁).length = 2 * ra₁.length ∧
    (∀ e ∈ parse_runtime_args ra₁, e.sensitivity = Sensitivity.expert) ∧
    ∃ m : List (String × CLValue), List.Perm m ra₁ ∧ m.Pairwise keyLt ∧
      parse_runtime_args ra₁ = m.enum.flatMap fun p =>
        [Element.expert ("arg-" ++ toString p.1 ++ "-name") p.2.1,
         Element.expert ("arg-" ++ toString p.1 ++ "-val") (cl_value_to_string p.2.2)] := by
  refine ⟨?_, ?_, parse_runtime_args_expert ra₁,
    toBTreeMap ra₁, toBTreeMap_perm ra₁ hnd, toBTreeMap_pairwise ra₁, rfl⟩
  · unfold parse_runtime_args
    rw [toBTreeMap_eq_of_perm ra₁ ra₂ hnd hperm]
  · unfold parse_runtime_args
    rw [flatMap_pair_length, List.enum_length]
    exact congrArg (2 * ·) (toBTreeMap_perm ra₁ hnd).length_eq

/-- C6 witness: a two-entry mapping inserted in both orders. -/
theorem c6_generic_dump_canonical_witness :
    (([("b", "2"), ("a", "1")] : RuntimeArgs).map Prod.fst).Nodup ∧
    parse_runtime_args [("b", "2"), ("a", "1")] =
      parse_runtime_args [("a", "1"), ("b", "2")] ∧
    (parse_runtime_args [("b", "2"), ("a", "1")]).length =
      2 * ([("b", "2"), ("a", "1")] : RuntimeArgs).length :=
  ⟨by decide,
   (c6_generic_dump_canonical [("b", "2"), ("a", "1")] [("a", "1"), ("b", "2")]
     (by decide) (List.Perm.swap ("a", "1") ("b", "2") [])).1,
   (c6_generic_dump_canonical [("b", "2"), ("a", "1")] [("a", "1"), ("b", "2")]
     (by decide) (List.Perm.swap ("a", "1") ("b", "2") [])).2.1⟩

/-- C7: amount formatting renders the decimal digits grouped in threes
from the least-significant end with a single space between groups followed
by " motes": the output is the space-intercalation of a group
decomposition of the digit string in which every group is nonempty of
size at most three and every group after the first is exactly three; the
four spec examples evaluate as claimed. -/
theorem c7_format_amount_grouping (n : Nat) :
    (∃ gs : List (List Char),
      gs ≠ [] ∧
      (∀ g ∈ gs, 0 < g.length ∧ g.length ≤ 3) ∧
      (∀ g ∈ gs.tail, g.length = 3) ∧
      gs.flatten = (Nat.repr n).data ∧
      format_amount n =
        String.intercalate " " (gs.map fun g => String.mk g) ++ " motes") ∧
    format_amount 1 = "1 motes" ∧
    format_amount 1000 = "1 000 motes" ∧
    format_amount 10000 = "10 000 motes" ∧
    format_amount 10000000000 = "10 000 000 000 motes" := by
  refine ⟨⟨((chunk3 (Nat.repr n).data.reverse).map List.reverse).reverse,
      ?_, ?_, ?_, ?_, rfl⟩, by decide, by decide, by decide, by decide⟩
  · have hr : (Nat.repr n).data.reverse ≠ [] := by
      simpa using repr_data_ne_nil n
    simp [List.reverse_eq_nil_iff, List.map_eq_nil_iff]
    exact chunk3_ne_nil _ hr
  · intro g hg
    rw [List.mem_reverse, List.mem_map] at hg
    obtain ⟨g', hg', rfl⟩ := hg
    simpa using chunk3_mem_length _ g' hg'
  · intro g hg
    rw [List.tail_reverse, List.mem_reverse, ← List.map_dropLast, List.mem_map] at hg
    obtain ⟨g', hg', rfl⟩ := hg
    simpa using chunk3_dropLast_length _ g' hg'
  · rw [List.flatten_reverse, List.map_map]
    simp [Function.comp_def, chunk3_flatten]

/-- C9: the "unexpected type" panic branches of the delegation and
undelegation formatters are unreachable through `parse_phase`:
`is_entrypoint` is false on the `ModuleBytes` and `Transfer` variants, so
the formatters are only ever invoked on stored-contract variants, and no
`parse_phase` outcome is either of those panics (the only faults that can
surface are the amount-literal ones). -/
theorem c9_auction_panic_unreachable (item : ExecutableDeployItem) (phase : TxnPhase)
    (mb : List Nat) (args : RuntimeArgs) (s : String) :
    is_entrypoint (.ModuleBytes mb args) s = false ∧
    is_entrypoint (.Transfer args) s = false ∧
    parse_phase item phase ≠ Except.error "unexpected type for delegation" ∧
    parse_phase item phase ≠ Except.error "unexpected type for undelegation" := by
  refine ⟨rfl, rfl, ?_, ?_⟩ <;>
    · intro h
      rcases parse_phase_error_shape _ _ _ h with he | he <;> exact absurd he (by decide)

/-- C9 witness: a concrete transfer item at a concrete phase. -/
theorem c9_auction_panic_unreachable_witness :
    is_entrypoint (.ModuleBytes [7] [("k", "v")]) "delegate" = false ∧
    is_entrypoint (.Transfer [("k", "v")]) "delegate" = false ∧
    parse_phase (.Transfer [("k", "v")]) TxnPhase.Session ≠
      Except.error "unexpected type for delegation" ∧
    parse_phase (.Transfer [("k", "v")]) TxnPhase.Session ≠
      Except.error "unexpected type for undelegation" :=
  c9_auction_panic_unreachable (.Transfer [("k", "v")]) TxnPhase.Session [7]
    [("k", "v")] "delegate"



/-- C5: amount extraction — when the "amount" key is absent no row is
emitted and no error occurs; when the key is present but its canonical
string form does not parse as a non-negative decimal integer literal, the
extraction fails and the parse of the enclosing transaction (a transfer
item, or a system-payment item in the payment phase) aborts with that
failure instead of producing a row sequence. -/
theorem c5_amount_absent_or_invalid (args : RuntimeArgs) (v : CLValue) (e : String)
    (phase : TxnPhase) :
    (args.get ARG_AMOUNT = none → parse_amount args = Except.ok none) ∧
    (args.get ARG_AMOUNT = some v →
      u512_from_dec_str (cl_value_to_string v) = Except.error e →
      parse_amount args = Except.error e ∧
      parse_phase (.Transfer args) phase = Except.error e ∧
      (phase = TxnPhase.Payment →
        parse_phase (.ModuleBytes [] args) phase = Except.error e)) := by
  constructor
  · intro habs
    unfold parse_amount parse_optional_arg
    rw [habs]
  · intro hget herr
    have hpa : parse_amount args = Except.error e := by
      unfold parse_amount parse_optional_arg
      rw [hget]
      simp [herr, Except.map]
    refine ⟨hpa, ?_, ?_⟩
    · have hta : parse_transfer_args args = Except.error e := by
        rw [parse_transfer_args_eq, hpa]; rfl
      show parse_phase (.Transfer args) phase = Except.error e
      simp only [parse_phase, is_delegate, is_undelegate, is_entrypoint]
      simp [hta, Bind.bind, Except.bind]
    · intro hph
      subst hph
      simp only [parse_phase, is_delegate, is_undelegate, is_entrypoint]
      simp [is_system_payment, TxnPhase.is_payment, hpa, Bind.bind, Except.bind]

/-- C5 witness: concrete absent and malformed amounts. -/
theorem c5_amount_absent_or_invalid_witness :
    parse_amount [] = Except.ok none ∧
    parse_amount [("amount", "12x")] = Except.error "InvalidCharacter" ∧
    parse_phase (.Transfer [("amount", "12x")]) TxnPhase.Session =
      Except.error "InvalidCharacter" ∧
    parse_phase (.ModuleBytes [] [("amount", "12x")]) TxnPhase.Payment =
      Except.error "InvalidCharacter" := by
  refine ⟨(c5_amount_absent_or_invalid [] "0" "e" TxnPhase.Session).1 rfl, ?_, ?_, ?_⟩
  · exact ((c5_amount_absent_or_invalid [("amount", "12x")] "12x" "InvalidCharacter"
      TxnPhase.Session).2 rfl rfl).1
  · exact ((c5_amount_absent_or_invalid [("amount", "12x")] "12x" "InvalidCharacter"
      TxnPhase.Session).2 rfl rfl).2.1
  · exact ((c5_amount_absent_or_invalid [("amount", "12x")] "12x" "InvalidCharacter"
      TxnPhase.Payment).2 rfl rfl).2.2 rfl

/-- C1: the claim that every named argument of a transaction appears in the
row sequence exactly once fails on the code: in the legacy `Transfer` arm
of `parse_phase` the transfer rows and the generic dump are computed into a
shadowed local and discarded, so an argument such as `extra = Y` — left
over by `remove_transfer_args` and due to be dumped — never reaches the
returned row sequence, which consists of the classification row alone. -/
theorem c1_legacy_transfer_drops_arguments :
    parse_phase (.Transfer [("extra", "Y")]) TxnPhase.Session =
      Except.ok [Element.regular "Session" "native transfer"] ∧
    remove_transfer_args [("extra", "Y")] = [("extra", "Y")] := by
  constructor <;> rfl

set_option maxRecDepth 8000 in
/-- C2: the claimed end-to-end legacy native-transfer row sequence fails on
the code: for `to = X`, `amount = 1000`, `id = 7` the `Transfer` arm of
`parse_phase` returns only the "native transfer" classification row, while
the specialized rows the claim expects are exactly what the shadowed,
discarded `parse_transfer_args` call computes. -/
theorem c2_legacy_transfer_rows_discarded :
    parse_phase (.Transfer [("to", "X"), ("amount", "1000"), ("id", "7")]) TxnPhase.Session =
      Except.ok [Element.regular "Session" "native transfer"] ∧
    parse_transfer_args [("to", "X"), ("amount", "1000"), ("id", "7")] =
      Except.ok [Element.regular "to" "X",
                 Element.regular "amount" "1 000 motes",
                 Element.expert "id" "7"] := by
  constructor <;> decide

/-- C3 counterexample: an execution item with empty embedded code bytes can
produce a content-digest row — the legacy parser in the session phase
classifies it as a contract and emits a "Cntrct hash" row holding the
digest of the empty byte string. -/
theorem c3_empty_bytes_digest_row_exists :
    Element.regular "Cntrct hash" (hashDigest []) ∈
      deploy_type TxnPhase.Session (.ModuleBytes [] []) := by
  simp [deploy_type, is_system_payment, TxnPhase.is_payment, TxnPhase.display]

/-- C3 (amended): hashing the same embedded-code bytes twice yields the
identical digest string, and empty embedded-code bytes never produce a
content-digest row in the legacy payment phase or in the new-format
parser; in the legacy session phase, however, an empty-bytes item is
classified as a contract and does produce a "Cntrct hash" row holding the
digest of the empty byte string. -/
theorem c3_amended_digest_rows (args : RuntimeArgs) (mb : List Nat)
    (ta : TransactionArgs) (ep : TransactionEntryPoint) :
    hashDigest mb = hashDigest mb ∧
    (∀ e ∈ deploy_type TxnPhase.Payment (.ModuleBytes [] args), e.label ≠ "Cntrct hash") ∧
    (∀ e ∈ v1_type ⟨ta, .Session [], ep, ()⟩, e.label ≠ "Cntrct hash") ∧
    Element.regular "Cntrct hash" (hashDigest []) ∈
      deploy_type TxnPhase.Session (.ModuleBytes [] args) := by
  refine ⟨rfl, ?_, ?_, ?_⟩
  · intro e he
    simp [deploy_type, is_system_payment, TxnPhase.is_payment, TxnPhase.display] at he
    subst he
    simp [Element.regular]
  · intro e he
    simp [v1_type, is_system_payment_v1] at he
  · simp [deploy_type, is_system_payment, TxnPhase.is_payment, TxnPhase.display]

/-- C3 amended witness: the payment-phase and new-format no-digest parts at
concrete empty-bytes inputs. -/
theorem c3_amended_digest_rows_witness :
    (∀ e ∈ deploy_type TxnPhase.Payment (.ModuleBytes [] []), e.label ≠ "Cntrct hash") ∧
    (∀ e ∈ v1_type ⟨TransactionArgs.Named [], .Session [], TransactionEntryPoint.Transfer, ()⟩,
      e.label ≠ "Cntrct hash") :=
  ⟨(c3_amended_digest_rows [] [] (TransactionArgs.Named []) TransactionEntryPoint.Transfer).2.1,
   (c3_amended_digest_rows [] [] (TransactionArgs.Named []) TransactionEntryPoint.Transfer).2.2.1⟩

/-- C8: the new-format header rows come in the order chain ID (Regular),
initiating account (Regular), timestamp (Expert), time-to-live (Expert),
price indicator (Expert), and the price indicator renders a
payment-limited mode as its literal payment amount, a fixed-price mode as
the literal string "Fixed", and a prepaid mode as "0". -/
theorem c8_v1_header_rows (p : TransactionV1Payload) :
    parse_v1_payload p =
      [Element.regular "chain ID" p.chain_name,
       Element.regular "account"
         (match p.initiator_addr with
          | .PublicKey pk => parse_public_key pk
          | .AccountHash ah => parse_account_hash ah),
       Element.expert "timestamp" (timestamp_to_seconds_res p.timestamp),
       Element.expert "ttl" p.ttl,
       Element.expert "payment" (price_indicator_spec p.pricing_mode)] := by
  unfold parse_v1_payload price_indicator_spec
  cases hm : p.pricing_mode <;> simp [hm]

/-- C10: the "system" classification of an embedded-code item is
phase-dependent — empty module bytes give kind "system" as the payment
item, while the identical empty-bytes item in the session phase is
classified "contract" and yields a "Cntrct hash" row with the digest of
the empty byte string. -/
theorem c10_system_kind_phase_dependent (args : RuntimeArgs) :
    deploy_type TxnPhase.Payment (.ModuleBytes [] args) =
      [Element.regular "Payment" "system"] ∧
    deploy_type TxnPhase.Session (.ModuleBytes [] args) =
      [Element.regular "Session" "contract",
       Element.regular "Cntrct hash" (hashDigest [])] :=
  ⟨rfl, rfl⟩

end DeployGen
